import Mathlib

/-!
# Verification of the pixelart-to-bin container codec and sequence assembler

Shallow embedding of the core of the `pixelart-to-bin` repository:

* `src/utils/add_metadata.py` — the binary container encoder
  (`flatten_rgb_matrix`, `add_header`, `add_trailer`, `add_metadata`);
* `src/test/test_bin.py` — the decoder / inspector
  (`read_bin_header`, `safe_read_frame_data`, the effective-frame-count
  computation of `test_bin_file`);
* `src/generate/make_sequence.py` — the sequence assembler
  (`create_sequence_from_config` with its nested `create_countdown_frames`).

Conventions of the embedding:

* A pixel is a `List Nat` (the Python code uses `[r, g, b]` lists), a row is a
  list of pixels, a frame a list of rows, and a byte buffer a `List Nat` whose
  entries are meant to lie in `0..255`.
* Python `struct.pack('<I', n)` / `('<Q', n)` become explicit little-endian
  byte lists with `% 256` / division, so a `u32` field stores `n % 2^32`.
* Python float arithmetic on the fixed constants (`frame_duration = 0.2`,
  `fps = int(1/frame_duration) = 5`) is embedded exactly over the rationals,
  with `int()` on a non-negative value as the floor; the definitions below are
  stated with the resulting natural-number values, and the floor computations
  are spelled out in the accompanying comments.
* Python list indexing `l[i]` becomes `List.getD i _` (all indexing sites used
  by the theorems are in bounds).
* Fallible operations (Python `raise ValueError`) return `Except String _`;
  the error strings abbreviate the Python messages by the error category they
  denote in the specification's taxonomy.
-/

namespace PixelArt

/-- Decidable equality of fallible results, so that concrete encode/decode
outcomes can be settled by `decide`. -/
instance {ε α : Type _} [DecidableEq ε] [DecidableEq α] :
    DecidableEq (Except ε α) := fun x y =>
  match x, y with
  | .error a, .error b =>
      if h : a = b then isTrue (by rw [h]) else isFalse (by simp [h])
  | .ok a, .ok b =>
      if h : a = b then isTrue (by rw [h]) else isFalse (by simp [h])
  | .error _, .ok _ => isFalse (by simp)
  | .ok _, .error _ => isFalse (by simp)

/-- A pixel as the Python code represents it: a list `[r, g, b]`. -/
abbrev Pixel := List Nat

/-- A row of pixels. -/
abbrev Row := List Pixel

/-- A frame: a row-major list of rows of `[r, g, b]` pixels. -/
abbrev Frame := List Row

/-- A byte buffer, each entry meant to be `< 256`. -/
abbrev Bytes := List Nat

/-! ## Container codec: `src/utils/add_metadata.py` -/

/-- `flatten_rgb_matrix(matrix)`:
`[value for row in matrix for pixel in row for value in pixel]` —
the row-major flattening of a frame into channel values. -/
def flatten_rgb_matrix (matrix : Frame) : List Nat :=
  (matrix.map (fun row => row.flatten)).flatten

/-- `struct.pack('<I', n)`: four little-endian bytes of `n % 2^32`. -/
def u32le (n : Nat) : Bytes :=
  [n % 256, n / 256 % 256, n / 65536 % 256, n / 16777216 % 256]

/-- `struct.pack('<Q', n)`: eight little-endian bytes of `n % 2^64`. -/
def u64le (n : Nat) : Bytes :=
  [n % 256, n / 256 % 256, n / 65536 % 256, n / 16777216 % 256,
   n / 4294967296 % 256, n / 1099511627776 % 256,
   n / 281474976710656 % 256, n / 72057594037927936 % 256]

/-- `add_header(total_frames, height, width, fps)`:
`struct.pack('<IIII', total_frames, height, width, fps)`. -/
def add_header (total_frames height width fps : Nat) : Bytes :=
  u32le total_frames ++ u32le height ++ u32le width ++ u32le fps

/-- `add_trailer(total_frames, end_marker=0xDEADBEEF)`:
`struct.pack('<IQI', total_frames, save_time, end_marker)`.  The wall-clock
`save_time = int(time.time())` is environment input, so it is taken here as an
explicit argument. -/
def add_trailer (total_frames save_time : Nat) : Bytes :=
  u32le total_frames ++ u64le save_time ++ u32le 0xDEADBEEF

/-- `add_metadata(rgb_matrices, fps)`: the container encoder.  Raises
`ValueError("No frame data provided.")` on an empty frame list; `bytes(...)`
raises `ValueError` when a channel value is not a byte.  Header dimensions are
taken from the first frame (`len(rgb_matrices[0])`, `len(rgb_matrices[0][0])`);
no cross-frame dimension check is performed by the source. -/
def add_metadata (rgb_matrices : List Frame) (fps : Nat) (save_time : Nat) :
    Except String Bytes :=
  if rgb_matrices = [] then
    .error "No frame data provided."
  else
    let total_frames := rgb_matrices.length
    let height := (rgb_matrices.getD 0 []).length
    let width := ((rgb_matrices.getD 0 []).getD 0 []).length
    if rgb_matrices.all (fun f => (flatten_rgb_matrix f).all (fun v => v < 256)) then
      .ok (add_header total_frames height width fps
            ++ (rgb_matrices.map flatten_rgb_matrix).flatten
            ++ add_trailer total_frames save_time)
    else
      .error "bytes value out of range"

/-! ## Decoder / inspector: `src/test/test_bin.py` -/

/-- `struct.unpack('<I', b[0:4])`: decode four little-endian bytes. -/
def u32dec (b : Bytes) : Nat :=
  b.getD 0 0 + 256 * b.getD 1 0 + 65536 * b.getD 2 0 + 16777216 * b.getD 3 0

/-- `read_bin_header(file_path)`: read the first 16 bytes and unpack
`(total_frames, height, width, fps)`; raises (`TruncatedHeader`) when fewer
than 16 bytes are available. -/
def read_bin_header (data : Bytes) : Except String (Nat × Nat × Nat × Nat) :=
  if data.length < 16 then
    .error "Could not read complete header"
  else
    .ok (u32dec data, u32dec (data.drop 4), u32dec (data.drop 8),
         u32dec (data.drop 12))

/-- `safe_read_frame_data(file_path, frame_index, height, width)`:
bounds-checked frame extraction.  `offset = 16 + frame_index*frame_size`;
raises (`OutOfRange`) when `offset + frame_size > file_size - 16` (trailer
reservation), (`TruncatedFrame`) when fewer bytes than a frame were read, and
otherwise rebuilds the `height × width` matrix of `[r, g, b]` pixels, reading
the three channels of pixel `(y, x)` at running byte index
`byte_idx = (y*width + x) * 3`. -/
def safe_read_frame_data (data : Bytes) (frame_index height width : Nat) :
    Except String Frame :=
  let frame_size := height * width * 3
  let file_size := data.length
  let offset := 16 + frame_index * frame_size
  if offset + frame_size > file_size - 16 then
    .error "OutOfRange"
  else
    let frame_data := (data.drop offset).take frame_size
    if frame_data.length ≠ frame_size then
      .error "TruncatedFrame"
    else
      .ok ((List.range height).map (fun y =>
            (List.range width).map (fun x =>
              [frame_data.getD ((y * width + x) * 3) 0,
               frame_data.getD ((y * width + x) * 3 + 1) 0,
               frame_data.getD ((y * width + x) * 3 + 2) 0])))

/-- The effective usable frame count of `test_bin_file` (and `play_bin_file`):
`actual_frames = (file_size - 32) // (height*width*3)` and
`effective_frames = min(total_frames, actual_frames)`.  (For `file_size < 32`
the Python `//` on the negative numerator yields a negative count, so no index
is below it; the truncated natural subtraction likewise admits no index.) -/
def effective_frames (total_frames height width file_size : Nat) : Nat :=
  min total_frames ((file_size - 32) / (height * width * 3))

/-- The all-black test of `test_bin_file` ("black (delay) frame"): every pixel
equals `[0, 0, 0]`. -/
def is_delay_frame (f : Frame) : Bool :=
  f.all (fun row => row.all (fun px => px = [0, 0, 0]))

/-- Well-formedness of a frame as a `height × width` grid of in-range
`[r, g, b]` pixels — the FrameBuffer invariant of the data model. -/
def frame_wf (height width : Nat) (f : Frame) : Bool :=
  f.length == height &&
    f.all (fun row => row.length == width &&
      row.all (fun px => px.length == 3 && px.all (fun c => decide (c < 256))))

end PixelArt

/-! ## Sequence assembler: `src/generate/make_sequence.py`

`create_sequence_from_config` works at the fixed constants
`frame_duration = 0.2` seconds and `fps = int(1 / frame_duration) = 5`.
Its float arithmetic is embedded exactly:

* `int((loop_delay_ms / 1000) / frame_duration)`
  `= ⌊(d / 1000) · 5⌋ = d * 5 / 1000` in natural division;
* `loops_needed = int(total_duration / sequence_duration_per_loop)`
  `= ⌊3600 / (k · (1/5))⌋ = ⌊18000 / k⌋ = 18000 / k` in natural division;
* `remaining_frames = int(remaining_time / frame_duration)`
  `= ⌊(3600 − n·(1/5)) · 5⌋ = 18000 − n` whenever the guard
  `remaining_time > 0` (that is, `n < 18000`) holds.
-/

namespace PixelArt

/-- `fps = int(1 / frame_duration)` at `frame_duration = 0.2`. -/
def seq_fps : Nat := 5

/-- `image_height = len(image_sequences[0])`. -/
def image_height (base : List Frame) : Nat := (base.getD 0 []).length

/-- `image_width = len(image_sequences[0][0])`. -/
def image_width (base : List Frame) : Nat :=
  ((base.getD 0 []).getD 0 []).length

/-- A solid-color frame of the base dimensions, e.g.
`[[[255, 0, 0] for _ in range(image_width)] for _ in range(image_height)]`. -/
def solid_frame (height width r g b : Nat) : Frame :=
  List.replicate height (List.replicate width [r, g, b])

/-- The black delay frame
`[[[0, 0, 0] for _ in range(image_width)] for _ in range(image_height)]`. -/
def black_frame (height width : Nat) : Frame := solid_frame height width 0 0 0

/-- `create_countdown_frames()`: `frames_per_second = fps = 5` copies of each
of red, yellow, green, black, in that order, at the base dimensions. -/
def create_countdown_frames (height width : Nat) : List Frame :=
  List.replicate seq_fps (solid_frame height width 255 0 0)
    ++ List.replicate seq_fps (solid_frame height width 255 255 0)
    ++ List.replicate seq_fps (solid_frame height width 0 255 0)
    ++ List.replicate seq_fps (solid_frame height width 0 0 0)

/-- `delay_frames_per_loop`: `0`, overwritten when `loop_delay_ms > 0` with
`int((loop_delay_ms / 1000) / frame_duration) = ⌊d/1000 · 5⌋ = d*5/1000`
(the finite branch recomputes the same expression as its `delay_frames`). -/
def delay_frames_per_loop (loop_delay_ms : Nat) : Nat :=
  if 0 < loop_delay_ms then loop_delay_ms * 5 / 1000 else 0

/-- `countdown_frames_per_loop`: `4 * fps` when the countdown is enabled. -/
def countdown_frames_per_loop (countdown_enabled : Bool) : Nat :=
  if countdown_enabled then 4 * seq_fps else 0

/-- `frames_per_loop = countdown_frames_per_loop + len(image_sequences)
+ delay_frames_per_loop` (infinite branch, delay included). -/
def frames_per_loop (base : List Frame) (loop_delay_ms : Nat)
    (countdown_enabled : Bool) : Nat :=
  countdown_frames_per_loop countdown_enabled + base.length
    + delay_frames_per_loop loop_delay_ms

/-- `loops_needed = int(total_duration / sequence_duration_per_loop)`
`= ⌊3600 / (frames_per_loop · (1/5))⌋ = 18000 / frames_per_loop`. -/
def loops_needed (base : List Frame) (loop_delay_ms : Nat)
    (countdown_enabled : Bool) : Nat :=
  18000 / frames_per_loop base loop_delay_ms countdown_enabled

/-- The body of one iteration of the infinite-loop emission
(`for loop_idx in range(loops_needed)`): countdown when enabled, then the
base images, then `delay_frames_per_loop` black frames — the latter only when
`loop_delay_ms > 0 and delay_frames_per_loop > 0 and image_sequences and
loop_idx < loops_needed - 1` (no delay after the last emitted loop). -/
def infinite_unit (base : List Frame) (loop_delay_ms : Nat)
    (countdown_enabled : Bool) (loop_idx : Nat) : List Frame :=
  (if countdown_enabled then
      create_countdown_frames (image_height base) (image_width base)
    else [])
  ++ base
  ++ (if 0 < loop_delay_ms ∧ 0 < delay_frames_per_loop loop_delay_ms
        ∧ base ≠ []
        ∧ loop_idx < loops_needed base loop_delay_ms countdown_enabled - 1 then
        List.replicate (delay_frames_per_loop loop_delay_ms)
          (black_frame (image_height base) (image_width base))
      else [])

/-- The frames emitted by the `loops_needed` iterations of the infinite
branch, before the fill-to-one-hour step. -/
def infinite_emitted (base : List Frame) (loop_delay_ms : Nat)
    (countdown_enabled : Bool) : List Frame :=
  (List.range (loops_needed base loop_delay_ms countdown_enabled)).flatMap
    (infinite_unit base loop_delay_ms countdown_enabled)

/-- The fill loop ("Add frames from the beginning of sequence to fill
remaining time"): the `j`-th appended frame is `image_sequences[j % L]` —
the running `frame_idx` counter resets to `0` on reaching `len(image_sequences)`
and immediately appends `image_sequences[0]`, so it cycles through the base
from its start. -/
def fill_frames (base : List Frame) (count : Nat) : List Frame :=
  (List.range count).map (fun j => base.getD (j % base.length) [])

/-- The infinite-loop branch (`loop_count == -1`): emit `loops_needed` loops,
then, when `remaining_time = 3600 - len(frames)*frame_duration > 0` (that is,
fewer than `18000` frames were emitted), append
`remaining_frames = int(remaining_time / frame_duration) = 18000 - len(frames)`
fill frames. -/
def assemble_infinite (base : List Frame) (loop_delay_ms : Nat)
    (countdown_enabled : Bool) : List Frame :=
  let emitted := infinite_emitted base loop_delay_ms countdown_enabled
  if emitted.length < 18000 then
    emitted ++ fill_frames base (18000 - emitted.length)
  else
    emitted

/-- The body of one iteration of the finite branch
(`for loop_idx in range(loop_count)`): countdown when enabled, then the base
images, then — whenever `loop_delay_ms > 0`, `delay_frames > 0` and the base
is non-empty — the delay block.  The finite branch has no last-iteration
exception: the delay block is appended after every iteration. -/
def finite_unit (base : List Frame) (loop_delay_ms : Nat)
    (countdown_enabled : Bool) : List Frame :=
  (if countdown_enabled then
      create_countdown_frames (image_height base) (image_width base)
    else [])
  ++ base
  ++ (if 0 < loop_delay_ms ∧ 0 < delay_frames_per_loop loop_delay_ms
        ∧ base ≠ [] then
        List.replicate (delay_frames_per_loop loop_delay_ms)
          (black_frame (image_height base) (image_width base))
      else [])

/-- The finite-loop branch: `unit` repeated `loop_count` times (the body does
not depend on `loop_idx`). -/
def assemble_finite (base : List Frame) (loop_count loop_delay_ms : Nat)
    (countdown_enabled : Bool) : List Frame :=
  (List.range loop_count).flatMap (fun _ =>
    finite_unit base loop_delay_ms countdown_enabled)

/-- `create_sequence_from_config` (frame construction and the guard before
writing): with no images the function prints "No images found to process!"
and returns without invoking `bin_maker` (`none` here); otherwise the frame
list of the `loop_count == -1` (infinite) or finite branch is built and
written.  A negative `loop_count` other than `-1` makes `range(loop_count)`
empty, matching `Int.toNat`. -/
def create_sequence_from_config (base : List Frame) (loop_count : Int)
    (loop_delay_ms : Nat) (countdown_enabled : Bool) : Option (List Frame) :=
  if base = [] then
    none
  else if loop_count = -1 then
    some (assemble_infinite base loop_delay_ms countdown_enabled)
  else
    some (assemble_finite base loop_count.toNat loop_delay_ms countdown_enabled)

end PixelArt

/-! ## Helper lemmas -/

namespace PixelArt

theorem u32le_length (n : Nat) : (u32le n).length = 4 := rfl

theorem u64le_length (n : Nat) : (u64le n).length = 8 := rfl

theorem add_header_length (a b c d : Nat) : (add_header a b c d).length = 16 := rfl

theorem add_trailer_length (a t : Nat) : (add_trailer a t).length = 16 := rfl

/-- Decoding a `u32` field recovers the packed value modulo `2^32`. -/
theorem u32dec_u32le_append (n : Nat) (rest : Bytes) :
    u32dec (u32le n ++ rest) = n % 4294967296 := by
  simp only [u32le, u32dec, List.cons_append, List.nil_append, List.getD_cons_zero,
    List.getD_cons_succ]
  omega

theorem u32le_append_drop4 (n : Nat) (rest : Bytes) :
    (u32le n ++ rest).drop 4 = rest := rfl

/-- A flattening of uniform-length blocks has length `count * size`. -/
theorem flatten_length_uniform {α : Type _} (L : List (List α)) (s : Nat)
    (h : ∀ b ∈ L, b.length = s) : L.flatten.length = L.length * s := by
  induction L with
  | nil => simp
  | cons b bs ih =>
    simp only [List.flatten_cons, List.length_append, List.length_cons]
    rw [h b (by simp), ih (fun x hx => h x (by simp [hx]))]
    ring

/-- Extracting block `i` from a flattening of uniform-length blocks. -/
theorem flatten_drop_take_uniform {α : Type _} (L : List (List α)) (s i : Nat)
    (h : ∀ b ∈ L, b.length = s) (hi : i < L.length) :
    (L.flatten.drop (i * s)).take s = L.getD i [] := by
  induction L generalizing i with
  | nil => simp at hi
  | cons b bs ih =>
    have hb : b.length = s := h b (by simp)
    cases i with
    | zero =>
      simp only [Nat.zero_mul, List.drop_zero, List.flatten_cons, List.getD_cons_zero]
      rw [List.take_append_of_le_length (by omega), ← hb, List.take_length]
    | succ i =>
      simp only [List.flatten_cons, List.getD_cons_succ]
      rw [show (i + 1) * s = b.length + i * s by rw [hb]; ring, List.drop_append]
      exact ih i (fun x hx => h x (by simp [hx]))
        (by simp only [List.length_cons] at hi; omega)

/-- Indexing into a flattening of uniform-length blocks. -/
theorem flatten_getD_uniform {α : Type _} (L : List (List α)) (s i j : Nat) (d : α)
    (h : ∀ b ∈ L, b.length = s) (hi : i < L.length) (hj : j < s) :
    L.flatten.getD (i * s + j) d = (L.getD i []).getD j d := by
  induction L generalizing i with
  | nil => simp at hi
  | cons b bs ih =>
    have hb : b.length = s := h b (by simp)
    cases i with
    | zero =>
      simp only [Nat.zero_mul, Nat.zero_add, List.flatten_cons, List.getD_cons_zero]
      exact List.getD_append _ _ _ _ (by omega)
    | succ i =>
      simp only [List.flatten_cons, List.getD_cons_succ]
      rw [show (i + 1) * s + j = b.length + (i * s + j) by rw [hb]; ring]
      rw [List.getD_append_right _ _ _ _ (by omega), Nat.add_sub_cancel_left]
      exact ih i (fun x hx => h x (by simp [hx]))
        (by simp only [List.length_cons] at hi; omega)

/-- `getD` through `map` at an in-bounds index. -/
theorem getD_map_of_lt {α β : Type _} (f : α → β) (l : List α) (i : Nat) (d : β)
    (d' : α) (h : i < l.length) : (l.map f).getD i d = f (l.getD i d') := by
  rw [List.getD_eq_getElem _ d (by simpa using h), List.getD_eq_getElem _ d' h]
  simp

/-- A three-element list is determined by its three `getD` values. -/
theorem eq_three_list (px : List Nat) (h : px.length = 3) (d : Nat) :
    px = [px.getD 0 d, px.getD 1 d, px.getD 2 d] := by
  match px, h with
  | [a, b, c], _ => rfl

theorem flatMap_range_succ {α : Type _} (f : Nat → List α) (n : Nat) :
    (List.range (n + 1)).flatMap f = (List.range n).flatMap f ++ f n := by
  simp [List.range_succ]

/-- Dropping `i` whole blocks (each of length `u`) of a `range`-indexed
flat map leaves the flat map of the remaining, shifted indices. -/
theorem flatMap_range_drop {α : Type _} (u : Nat) :
    ∀ (i : Nat) (f : Nat → List α) (m : Nat), i ≤ m →
      (∀ j, j < i → (f j).length = u) →
      ((List.range m).flatMap f).drop (i * u) =
        (List.range (m - i)).flatMap (fun j => f (j + i)) := by
  intro i
  induction i with
  | zero => intro f m _ _; simp
  | succ i ih =>
    intro f m him hlen
    obtain ⟨m', rfl⟩ : ∃ m', m = m' + 1 := ⟨m - 1, by omega⟩
    rw [List.range_succ_eq_map, List.flatMap_cons, List.flatMap_map]
    rw [show (i + 1) * u = (f 0).length + i * u by rw [hlen 0 (by omega)]; ring]
    rw [List.drop_append]
    rw [show m' + 1 - (i + 1) = m' - i by omega]
    exact ih (fun j => f (j + 1)) m' (by omega) (fun j hj => hlen (j + 1) (by omega))

theorem frame_wf_height {height width : Nat} {f : Frame}
    (hwf : frame_wf height width f = true) : f.length = height := by
  simp only [frame_wf, Bool.and_eq_true, beq_iff_eq] at hwf
  exact hwf.1

theorem frame_wf_row {height width : Nat} {f : Frame}
    (hwf : frame_wf height width f = true) :
    ∀ row ∈ f, row.length = width := by
  simp only [frame_wf, Bool.and_eq_true, beq_iff_eq, List.all_eq_true] at hwf
  exact fun row hr => (hwf.2 row hr).1

theorem frame_wf_px {height width : Nat} {f : Frame}
    (hwf : frame_wf height width f = true) :
    ∀ row ∈ f, ∀ px ∈ row, px.length = 3 := by
  simp only [frame_wf, Bool.and_eq_true, beq_iff_eq, List.all_eq_true] at hwf
  exact fun row hr px hp => ((hwf.2 row hr).2 px hp).1

theorem frame_wf_channel {height width : Nat} {f : Frame}
    (hwf : frame_wf height width f = true) :
    ∀ row ∈ f, ∀ px ∈ row, ∀ c ∈ px, c < 256 := by
  simp only [frame_wf, Bool.and_eq_true, beq_iff_eq, List.all_eq_true,
    decide_eq_true_eq] at hwf
  exact fun row hr px hp c hc => ((hwf.2 row hr).2 px hp).2 c hc

/-- A well-formed row flattens to `width * 3` channel values. -/
theorem row_flatten_length {width : Nat} {row : Row}
    (hr : row.length = width) (hp : ∀ px ∈ row, px.length = 3) :
    row.flatten.length = width * 3 := by
  rw [flatten_length_uniform row 3 hp, hr]

/-- A well-formed frame flattens to `height * width * 3` channel values. -/
theorem flatten_rgb_matrix_length {height width : Nat} {f : Frame}
    (hwf : frame_wf height width f = true) :
    (flatten_rgb_matrix f).length = height * width * 3 := by
  unfold flatten_rgb_matrix
  rw [flatten_length_uniform (f.map fun row => row.flatten) (width * 3) ?_]
  · rw [List.length_map, frame_wf_height hwf]; ring
  · intro b hb
    obtain ⟨row, hrow, rfl⟩ := List.mem_map.1 hb
    exact row_flatten_length (frame_wf_row hwf row hrow) (frame_wf_px hwf row hrow)

/-- All channel values of a well-formed frame are bytes. -/
theorem flatten_rgb_matrix_channels {height width : Nat} {f : Frame}
    (hwf : frame_wf height width f = true) :
    ∀ v ∈ flatten_rgb_matrix f, v < 256 := by
  intro v hv
  simp only [flatten_rgb_matrix, List.mem_flatten, List.mem_map] at hv
  obtain ⟨b, ⟨⟨row, hrow, rfl⟩, hvb⟩⟩ := hv
  obtain ⟨px, hpx, hvpx⟩ := List.mem_flatten.1 hvb
  exact frame_wf_channel hwf row hrow px hpx v hvpx

/-- On a non-empty list of well-formed frames `add_metadata` succeeds and
produces header ++ frame bytes ++ trailer, with the header dimensions taken
from the first frame. -/
theorem add_metadata_ok (frames : List Frame) (height width fps t : Nat)
    (hne : frames ≠ [])
    (hwf : frames.all (frame_wf height width) = true) :
    add_metadata frames fps t =
      .ok (add_header frames.length (frames.getD 0 []).length
            ((frames.getD 0 []).getD 0 []).length fps
          ++ (frames.map flatten_rgb_matrix).flatten
          ++ add_trailer frames.length t) := by
  rw [List.all_eq_true] at hwf
  unfold add_metadata
  rw [if_neg hne, if_pos]
  rw [List.all_eq_true]
  intro f hf
  rw [List.all_eq_true]
  intro v hv
  simpa using flatten_rgb_matrix_channels (hwf f hf) v hv

theorem u32le2_append_drop8 (a b : Nat) (rest : Bytes) :
    (u32le a ++ (u32le b ++ rest)).drop 8 = rest := rfl

theorem u32le3_append_drop12 (a b c : Nat) (rest : Bytes) :
    (u32le a ++ (u32le b ++ (u32le c ++ rest))).drop 12 = rest := rfl

/-- Decoding the header of an encoded container recovers the four fields
modulo `2^32`. -/
theorem read_bin_header_encode (a b c d : Nat) (rest : Bytes) :
    read_bin_header (add_header a b c d ++ rest) =
      .ok (a % 4294967296, b % 4294967296, c % 4294967296, d % 4294967296) := by
  have hform : add_header a b c d ++ rest =
      u32le a ++ (u32le b ++ (u32le c ++ (u32le d ++ rest))) := by
    simp [add_header, List.append_assoc]
  rw [read_bin_header, hform, if_neg]
  · rw [u32dec_u32le_append]
    rw [u32le_append_drop4, u32dec_u32le_append]
    rw [u32le2_append_drop8, u32dec_u32le_append]
    rw [u32le3_append_drop12, u32dec_u32le_append]
  · simp [u32le]

/-- Reading channel `c` of pixel `(y, x)` from the flattening of a
well-formed frame yields that pixel's channel. -/
theorem flatten_pixel_getD {height width : Nat} {f : Frame}
    (hwf : frame_wf height width f = true) (y x c : Nat)
    (hy : y < height) (hx : x < width) (hc : c < 3) :
    (flatten_rgb_matrix f).getD ((y * width + x) * 3 + c) 0 =
      ((f.getD y []).getD x []).getD c 0 := by
  have hrowmem : f.getD y [] ∈ f := by
    rw [List.getD_eq_getElem _ _ (by rw [frame_wf_height hwf]; exact hy)]
    exact List.getElem_mem _
  have hxw : x * 3 + c < width * 3 := by
    have h3 : (x + 1) * 3 ≤ width * 3 := Nat.mul_le_mul_right 3 hx
    have : (x + 1) * 3 = x * 3 + 3 := by ring
    omega
  unfold flatten_rgb_matrix
  rw [show (y * width + x) * 3 + c = y * (width * 3) + (x * 3 + c) by ring]
  rw [flatten_getD_uniform (f.map fun row => row.flatten) (width * 3) y
        (x * 3 + c) 0
        (by
          intro b hb
          obtain ⟨row, hrow, rfl⟩ := List.mem_map.1 hb
          exact row_flatten_length (frame_wf_row hwf row hrow)
            (frame_wf_px hwf row hrow))
        (by rw [List.length_map, frame_wf_height hwf]; exact hy) hxw]
  rw [getD_map_of_lt _ _ _ _ [] (by rw [frame_wf_height hwf]; exact hy)]
  rw [flatten_getD_uniform (f.getD y []) 3 x c 0
        (frame_wf_px hwf _ hrowmem)
        (by rw [frame_wf_row hwf _ hrowmem]; exact hx) hc]

/-- Decoding frame `i` of an encoded container recovers the `i`-th input
frame, pixel for pixel: the core round-trip fact. -/
theorem safe_read_encode (header : Bytes) (frames : List Frame)
    (height width i : Nat) (trailer : Bytes)
    (hhead : header.length = 16) (htr : trailer.length = 16)
    (hwfall : frames.all (frame_wf height width) = true)
    (hi : i < frames.length) :
    safe_read_frame_data
        (header ++ (frames.map flatten_rgb_matrix).flatten ++ trailer)
        i height width =
      .ok (frames.getD i []) := by
  rw [List.all_eq_true] at hwfall
  have hblocks : ∀ b ∈ frames.map flatten_rgb_matrix,
      b.length = height * width * 3 := by
    intro b hb
    obtain ⟨f, hf, rfl⟩ := List.mem_map.1 hb
    exact flatten_rgb_matrix_length (hwfall f hf)
  have hbodylen : (frames.map flatten_rgb_matrix).flatten.length =
      frames.length * (height * width * 3) := by
    rw [flatten_length_uniform _ _ hblocks, List.length_map]
  have hmul : (i + 1) * (height * width * 3) ≤
      frames.length * (height * width * 3) := Nat.mul_le_mul_right _ hi
  have hise : (i + 1) * (height * width * 3) =
      i * (height * width * 3) + height * width * 3 := by ring
  have hdatalen :
      (header ++ (frames.map flatten_rgb_matrix).flatten ++ trailer).length =
        16 + frames.length * (height * width * 3) + 16 := by
    simp only [List.length_append, hhead, htr, hbodylen]
  have hfmem : frames.getD i [] ∈ frames := by
    rw [List.getD_eq_getElem _ _ hi]
    exact List.getElem_mem _
  have hfwf := hwfall _ hfmem
  have hdrop :
      (((header ++ (frames.map flatten_rgb_matrix).flatten ++ trailer).drop
          (16 + i * (height * width * 3))).take (height * width * 3)) =
        flatten_rgb_matrix (frames.getD i []) := by
    rw [List.append_assoc]
    rw [show 16 + i * (height * width * 3) =
          header.length + i * (height * width * 3) by rw [hhead]]
    rw [List.drop_append]
    rw [List.drop_append_of_le_length (by rw [hbodylen]; omega)]
    rw [List.take_append_of_le_length
          (by rw [List.length_drop, hbodylen]; omega)]
    rw [flatten_drop_take_uniform _ _ i hblocks (by rw [List.length_map]; exact hi)]
    rw [getD_map_of_lt _ _ _ _ [] hi]
  simp only [safe_read_frame_data]
  rw [if_neg (by rw [hdatalen]; omega)]
  rw [hdrop]
  rw [if_neg (by rw [flatten_rgb_matrix_length hfwf]; simp)]
  refine congrArg Except.ok ?_
  apply List.ext_getElem
  · rw [List.length_map, List.length_range, frame_wf_height hfwf]
  · intro y hy1 hy2
    have hy : y < height := by simpa using hy1
    simp only [List.getElem_map, List.getElem_range]
    have hyl : y < (frames.getD i []).length := by
      rw [frame_wf_height hfwf]; exact hy
    have hrow_eq : (frames.getD i []).getD y [] = (frames.getD i [])[y] :=
      List.getD_eq_getElem _ [] hyl
    have hrowmem2 : (frames.getD i [])[y] ∈ frames.getD i [] :=
      List.getElem_mem _
    apply List.ext_getElem
    · rw [List.length_map, List.length_range, frame_wf_row hfwf _ hrowmem2]
    · intro x hx1 hx2
      have hx : x < width := by simpa using hx1
      simp only [List.getElem_map, List.getElem_range]
      have h0 := flatten_pixel_getD hfwf y x 0 hy hx (by omega)
      have h1 := flatten_pixel_getD hfwf y x 1 hy hx (by omega)
      have h2 := flatten_pixel_getD hfwf y x 2 hy hx (by omega)
      rw [Nat.add_zero] at h0
      have hxl : x < ((frames.getD i [])[y]).length := by
        rw [frame_wf_row hfwf _ hrowmem2]; exact hx
      have hpx_eq : ((frames.getD i [])[y]).getD x [] =
          ((frames.getD i [])[y])[x] :=
        List.getD_eq_getElem _ [] hxl
      have hpxmem : ((frames.getD i [])[y])[x] ∈ (frames.getD i [])[y] :=
        List.getElem_mem _
      have hpx3 : (((frames.getD i [])[y])[x]).length = 3 :=
        frame_wf_px hfwf _ hrowmem2 _ hpxmem
      rw [h0, h1, h2, hrow_eq, hpx_eq]
      exact (eq_three_list _ hpx3 0).symm

theorem create_countdown_frames_length (height width : Nat) :
    (create_countdown_frames height width).length = 20 := by
  simp [create_countdown_frames, seq_fps]

/-- Every emitted loop iteration before the last is exactly `frames_per_loop`
frames long. -/
theorem infinite_unit_length_eq (base : List Frame) (d : Nat) (cd : Bool)
    (j : Nat) (hb : base ≠ [])
    (hj : j < loops_needed base d cd - 1) :
    (infinite_unit base d cd j).length = frames_per_loop base d cd := by
  rcases (show delay_frames_per_loop d = 0 ∨
      (0 < d ∧ 0 < delay_frames_per_loop d) by
        unfold delay_frames_per_loop; split_ifs <;> omega) with h | h
  · have hc : ¬(0 < d ∧ 0 < delay_frames_per_loop d ∧ base ≠ [] ∧
        j < loops_needed base d cd - 1) := by simp [h]
    simp only [infinite_unit, List.length_append, if_neg hc]
    simp only [frames_per_loop, countdown_frames_per_loop, h, seq_fps]
    cases cd <;> simp [create_countdown_frames_length]
  · have hc : 0 < d ∧ 0 < delay_frames_per_loop d ∧ base ≠ [] ∧
        j < loops_needed base d cd - 1 := ⟨h.1, h.2, hb, hj⟩
    simp only [infinite_unit, List.length_append, if_pos hc]
    simp only [frames_per_loop, countdown_frames_per_loop,
      List.length_replicate, seq_fps]
    cases cd <;> simp [create_countdown_frames_length]

/-- Two byte buffers `P ++ (x ++ E)` and `P ++ (y ++ E)` that differ only in
the equal-length middle segments `x`/`y` agree at every index outside that
segment. -/
theorem getD_outside_agree (P x y E : Bytes) (j : Nat)
    (hxy : x.length = y.length)
    (hj : j < P.length ∨ P.length + x.length ≤ j) :
    (P ++ (x ++ E)).getD j 0 = (P ++ (y ++ E)).getD j 0 := by
  rcases hj with hj | hj
  · rw [List.getD_append P (x ++ E) 0 j hj, List.getD_append P (y ++ E) 0 j hj]
  · rw [List.getD_append_right P (x ++ E) 0 j (by omega),
      List.getD_append_right P (y ++ E) 0 j (by omega),
      List.getD_append_right x E 0 (j - P.length) (by omega),
      List.getD_append_right y E 0 (j - P.length) (by omega), hxy]

/-! ## Claim theorems -/

/-- C9: encoding the empty frame list fails with the `EmptyInput` error
(`ValueError("No frame data provided.")`) and produces no bytes, and the
assembler guard returns without writing anything when the base image list is
empty (no zero-length container is produced). -/
theorem C9_empty_input_fails :
    (∀ fps t : Nat, add_metadata [] fps t = .error "No frame data provided.") ∧
    (∀ (lc : Int) (d : Nat) (cdb : Bool),
      create_sequence_from_config [] lc d cdb = none) :=
  ⟨fun _ _ => rfl, fun _ _ _ => rfl⟩

/-- C3 counterexample: in the finite case (`loop = 2`, `loop_delay_ms = 1000`,
non-black single base frame) the output *does* end in a delay block — its
final 5 frames are all black although the last base frame is solid red, so
the delay block is not omitted after the final iteration. -/
theorem C3_finite_trailing_delay_counterexample :
    create_sequence_from_config [[[[255, 0, 0]]]] 2 1000 false =
      some ([[[[255, 0, 0]]]] ++ List.replicate 5 (black_frame 1 1)
            ++ [[[[255, 0, 0]]]] ++ List.replicate 5 (black_frame 1 1)) ∧
    ([[[[255, 0, 0]]]] ++ List.replicate 5 (black_frame 1 1)
        ++ [[[[255, 0, 0]]]] ++ List.replicate 5 (black_frame 1 1)).drop 7 =
      List.replicate 5 (black_frame 1 1) ∧
    is_delay_frame (black_frame 1 1) = true ∧
    is_delay_frame [[[255, 0, 0]]] = false :=
  ⟨by decide, by decide, by decide, by decide⟩

/-- C3 (amended): the finite branch appends the delay block after *every*
iteration, including the last — for any `N ≥ 1` with a positive delay block,
the output's final `delay_frames_per_loop` frames are the black delay frames
(only the infinite branch omits the trailing delay). -/
theorem C3_finite_loop_keeps_trailing_delay (base : List Frame)
    (N d : Nat) (cdb : Bool) (hb : base ≠ []) (hN : 1 ≤ N) (hd : 0 < d)
    (hdf : 0 < delay_frames_per_loop d) :
    (assemble_finite base N d cdb).drop
        ((assemble_finite base N d cdb).length - delay_frames_per_loop d) =
      List.replicate (delay_frames_per_loop d)
        (black_frame (image_height base) (image_width base)) := by
  obtain ⟨N', rfl⟩ : ∃ N', N = N' + 1 := ⟨N - 1, by omega⟩
  have hunit : finite_unit base d cdb =
      ((if cdb then
          create_countdown_frames (image_height base) (image_width base)
        else []) ++ base) ++
        List.replicate (delay_frames_per_loop d)
          (black_frame (image_height base) (image_width base)) := by
    have hc : 0 < d ∧ 0 < delay_frames_per_loop d ∧ base ≠ [] := ⟨hd, hdf, hb⟩
    unfold finite_unit
    rw [if_pos hc]
  unfold assemble_finite
  rw [flatMap_range_succ, hunit, ← List.append_assoc]
  rw [List.length_append, List.length_replicate, Nat.add_sub_cancel]
  exact List.drop_left _ _

/-- Witness for C3 (amended): two finite loops at 1000 ms delay end in the
5-frame black delay block. -/
theorem C3_finite_loop_keeps_trailing_delay_witness :
    ([[[[255, 0, 0]]]] : List Frame) ≠ [] ∧ 1 ≤ 2 ∧ 0 < 1000 ∧
    0 < delay_frames_per_loop 1000 ∧
    (assemble_finite [[[[255, 0, 0]]]] 2 1000 false).drop
        ((assemble_finite [[[[255, 0, 0]]]] 2 1000 false).length -
          delay_frames_per_loop 1000) =
      List.replicate (delay_frames_per_loop 1000)
        (black_frame (image_height [[[[255, 0, 0]]]])
          (image_width [[[[255, 0, 0]]]])) :=
  ⟨by decide, by decide, by decide, by decide,
    C3_finite_loop_keeps_trailing_delay [[[[255, 0, 0]]]] 2 1000 false
      (by decide) (by decide) (by decide) (by decide)⟩

/-- C10: encoding is deterministic up to `save_time` — two encodings of the
same frames at the same fps have equal length, and agree at every byte
position outside the eight `save_time` bytes, which occupy positions
`[len-12, len-4)`. -/
theorem C10_encode_deterministic_up_to_save_time (frames : List Frame)
    (fps t1 t2 j : Nat) (b1 b2 : Bytes)
    (h1 : add_metadata frames fps t1 = .ok b1)
    (h2 : add_metadata frames fps t2 = .ok b2)
    (hj : j < b1.length - 12 ∨ b1.length - 4 ≤ j) :
    b1.length = b2.length ∧ b1.getD j 0 = b2.getD j 0 := by
  unfold add_metadata at h1 h2
  by_cases hne : frames = []
  · rw [if_pos hne] at h1
    exact absurd h1 (by simp)
  rw [if_neg hne] at h1 h2
  by_cases hall : frames.all
      (fun f => (flatten_rgb_matrix f).all (fun v => v < 256)) = true
  · rw [if_pos hall] at h1 h2
    have e1 : b1 =
        (add_header frames.length (frames.getD 0 []).length
            ((frames.getD 0 []).getD 0 []).length fps
          ++ (frames.map flatten_rgb_matrix).flatten ++ u32le frames.length)
        ++ (u64le t1 ++ u32le 0xDEADBEEF) := by
      rw [← Except.ok.inj h1]
      simp [add_trailer, List.append_assoc]
    have e2 : b2 =
        (add_header frames.length (frames.getD 0 []).length
            ((frames.getD 0 []).getD 0 []).length fps
          ++ (frames.map flatten_rgb_matrix).flatten ++ u32le frames.length)
        ++ (u64le t2 ++ u32le 0xDEADBEEF) := by
      rw [← Except.ok.inj h2]
      simp [add_trailer, List.append_assoc]
    have hlen1 : b1.length =
        (add_header frames.length (frames.getD 0 []).length
            ((frames.getD 0 []).getD 0 []).length fps
          ++ (frames.map flatten_rgb_matrix).flatten
          ++ u32le frames.length).length + 12 := by
      rw [e1, List.length_append,
        show (u64le t1 ++ u32le 3735928559).length = 12 from by
          rw [List.length_append, u64le_length, u32le_length]]
    have hlen2 : b2.length =
        (add_header frames.length (frames.getD 0 []).length
            ((frames.getD 0 []).getD 0 []).length fps
          ++ (frames.map flatten_rgb_matrix).flatten
          ++ u32le frames.length).length + 12 := by
      rw [e2, List.length_append,
        show (u64le t2 ++ u32le 3735928559).length = 12 from by
          rw [List.length_append, u64le_length, u32le_length]]
    refine ⟨by rw [hlen1, hlen2], ?_⟩
    rw [e1, e2]
    apply getD_outside_agree
    · rw [u64le_length, u64le_length]
    · rw [u64le_length]
      omega
  · rw [if_neg hall] at h1
    exact absurd h1 (by simp)

/-- Witness for C10: a one-pixel frame encoded at two different save times. -/
theorem C10_encode_deterministic_up_to_save_time_witness :
    add_metadata [[[[1, 2, 3]]]] 1 0 =
      .ok ((add_metadata [[[[1, 2, 3]]]] 1 0).toOption.getD []) ∧
    add_metadata [[[[1, 2, 3]]]] 1 99999 =
      .ok ((add_metadata [[[[1, 2, 3]]]] 1 99999).toOption.getD []) ∧
    (((add_metadata [[[[1, 2, 3]]]] 1 0).toOption.getD []).length =
      ((add_metadata [[[[1, 2, 3]]]] 1 99999).toOption.getD []).length ∧
    ((add_metadata [[[[1, 2, 3]]]] 1 0).toOption.getD []).getD 16 0 =
      ((add_metadata [[[[1, 2, 3]]]] 1 99999).toOption.getD []).getD 16 0) :=
  ⟨by decide, by decide,
    C10_encode_deterministic_up_to_save_time [[[[1, 2, 3]]]] 1 0 99999 16 _ _
      (by decide) (by decide) (by decide)⟩

/-- C8: a truncated container stays usable — whenever `i` is below the
effective frame count `min(total_frames, (file_size - 32) / frame_size)`,
frame `i` is still extractable (`safe_read_frame_data` succeeds). -/
theorem C8_truncated_container_still_usable (data : Bytes) (tf h w i : Nat)
    (hi : i < effective_frames tf h w data.length) :
    (safe_read_frame_data data i h w).isOk = true := by
  unfold effective_frames at hi
  have hq : i < (data.length - 32) / (h * w * 3) := (Nat.lt_min.mp hi).2
  rcases Nat.eq_zero_or_pos (h * w * 3) with hz | hz
  · rw [hz] at hq
    simp at hq
  have h32 : 32 ≤ data.length := by
    by_contra hcon
    rw [show data.length - 32 = 0 by omega] at hq
    simp at hq
  have hmul : (i + 1) * (h * w * 3) ≤ data.length - 32 := by
    calc (i + 1) * (h * w * 3)
        ≤ ((data.length - 32) / (h * w * 3)) * (h * w * 3) :=
          Nat.mul_le_mul_right _ hq
      _ ≤ data.length - 32 := Nat.div_mul_le_self _ _
  have hise : (i + 1) * (h * w * 3) = i * (h * w * 3) + h * w * 3 := by ring
  simp only [safe_read_frame_data]
  rw [if_neg (by omega)]
  rw [if_neg (by
    simp only [List.length_take, List.length_drop]
    omega)]
  rfl

/-- Witness for C8: a 38-byte file whose header claims 3 one-pixel frames
holds only 2 whole frames; frame 1 is still extractable. -/
theorem C8_truncated_container_still_usable_witness :
    1 < effective_frames 3 1 1 (List.replicate 38 0).length ∧
    (safe_read_frame_data (List.replicate 38 0) 1 1 1).isOk = true :=
  ⟨by decide,
    C8_truncated_container_still_usable (List.replicate 38 0) 3 1 1 1
      (by decide)⟩

/-- C2: round trip.  For a non-empty list of well-formed `height × width`
frames (values in u32 range), decoding the encoded container recovers the
header fields exactly and every frame pixel for pixel. -/
theorem C2_encode_decode_round_trip (frames : List Frame)
    (h w fps t i : Nat)
    (hne : frames ≠ [])
    (hwf : frames.all (frame_wf h w) = true)
    (hh : 0 < h)
    (hF : frames.length < 4294967296) (hhb : h < 4294967296)
    (hwb : w < 4294967296) (hfb : fps < 4294967296)
    (hi : i < frames.length) :
    (add_metadata frames fps t).isOk = true ∧
    read_bin_header ((add_metadata frames fps t).toOption.getD []) =
      .ok (frames.length, h, w, fps) ∧
    safe_read_frame_data ((add_metadata frames fps t).toOption.getD [])
        i h w =
      .ok (frames.getD i []) := by
  have hok := add_metadata_ok frames h w fps t hne hwf
  have hfirstmem : frames.getD 0 [] ∈ frames := by
    rw [List.getD_eq_getElem _ _ (List.length_pos.2 hne)]
    exact List.getElem_mem _
  have hfirstwf := (List.all_eq_true.mp hwf) _ hfirstmem
  have h0 : (frames.getD 0 []).length = h := frame_wf_height hfirstwf
  have hw0 : ((frames.getD 0 []).getD 0 []).length = w := by
    have hrowmem : (frames.getD 0 []).getD 0 [] ∈ frames.getD 0 [] := by
      rw [List.getD_eq_getElem (frames.getD 0 []) []
            (show 0 < (frames.getD 0 []).length by rw [h0]; exact hh)]
      exact List.getElem_mem _
    exact frame_wf_row hfirstwf _ hrowmem
  rw [h0, hw0] at hok
  rw [hok]
  refine ⟨rfl, ?_, ?_⟩
  · show read_bin_header
        (add_header frames.length h w fps
          ++ (frames.map flatten_rgb_matrix).flatten
          ++ add_trailer frames.length t) = _
    rw [List.append_assoc, read_bin_header_encode]
    rw [Nat.mod_eq_of_lt hF, Nat.mod_eq_of_lt hhb, Nat.mod_eq_of_lt hwb,
      Nat.mod_eq_of_lt hfb]
  · exact safe_read_encode (add_header frames.length h w fps) frames h w i
      (add_trailer frames.length t) (add_header_length _ _ _ _)
      (add_trailer_length _ _) hwf hi

/-- Witness for C2 at a single 1×1 frame with pixel `[9, 8, 7]`. -/
theorem C2_encode_decode_round_trip_witness :
    ([[[[9, 8, 7]]]] : List Frame) ≠ [] ∧
    ([[[[9, 8, 7]]]] : List Frame).all (frame_wf 1 1) = true ∧
    ((add_metadata [[[[9, 8, 7]]]] 3 0).isOk = true ∧
    read_bin_header ((add_metadata [[[[9, 8, 7]]]] 3 0).toOption.getD []) =
      .ok (([[[[9, 8, 7]]]] : List Frame).length, 1, 1, 3) ∧
    safe_read_frame_data
        ((add_metadata [[[[9, 8, 7]]]] 3 0).toOption.getD []) 0 1 1 =
      .ok (([[[[9, 8, 7]]]] : List Frame).getD 0 [])) :=
  ⟨by decide, by decide,
    C2_encode_decode_round_trip [[[[9, 8, 7]]]] 1 1 3 0 0 (by decide)
      (by decide) (by decide) (by decide) (by decide) (by decide) (by decide)
      (by decide)⟩

/-- C7: the concrete scenario — two 2×2 all-red frames at fps 1 encode to
exactly `16 + 2*12 + 16 = 56` bytes; frame index 1 decodes to the 2×2 all-red
grid; index 2 fails with `OutOfRange`; and in general `safe_read_frame_data`
fails with `OutOfRange` whenever `16 + index*frame_size + frame_size` exceeds
the byte length minus the 16-byte trailer reservation. -/
theorem C7_two_red_frames_scenario (t : Nat) (data data' : Bytes)
    (i h w : Nat)
    (henc : add_metadata [solid_frame 2 2 255 0 0, solid_frame 2 2 255 0 0] 1 t
      = .ok data)
    (hcond : 16 + i * (h * w * 3) + h * w * 3 > data'.length - 16) :
    data.length = 56 ∧
    safe_read_frame_data data 1 2 2 = .ok (solid_frame 2 2 255 0 0) ∧
    safe_read_frame_data data 2 2 2 = .error "OutOfRange" ∧
    safe_read_frame_data data' i h w = .error "OutOfRange" := by
  have hwf : ([solid_frame 2 2 255 0 0, solid_frame 2 2 255 0 0] :
      List Frame).all (frame_wf 2 2) = true := by decide
  have hok := add_metadata_ok
    [solid_frame 2 2 255 0 0, solid_frame 2 2 255 0 0] 2 2 1 t (by decide) hwf
  rw [henc] at hok
  have hdata := Except.ok.inj hok
  subst hdata
  have hlen :
      (add_header
          ([solid_frame 2 2 255 0 0, solid_frame 2 2 255 0 0] :
            List Frame).length
          (([solid_frame 2 2 255 0 0, solid_frame 2 2 255 0 0] :
            List Frame).getD 0 []).length
          ((([solid_frame 2 2 255 0 0, solid_frame 2 2 255 0 0] :
            List Frame).getD 0 []).getD 0 []).length 1
        ++ (([solid_frame 2 2 255 0 0, solid_frame 2 2 255 0 0] :
            List Frame).map flatten_rgb_matrix).flatten
        ++ add_trailer
            ([solid_frame 2 2 255 0 0, solid_frame 2 2 255 0 0] :
              List Frame).length t).length = 56 := by
    rw [List.length_append, List.length_append, add_header_length,
      add_trailer_length,
      show ((([solid_frame 2 2 255 0 0, solid_frame 2 2 255 0 0] :
          List Frame).map flatten_rgb_matrix).flatten).length = 24 from by
        decide]
  refine ⟨hlen, ?_, ?_, ?_⟩
  · exact safe_read_encode _ _ 2 2 1 _ (add_header_length _ _ _ _)
      (add_trailer_length _ _) hwf (by decide)
  · simp only [safe_read_frame_data]
    rw [if_pos (by rw [hlen]; norm_num)]
  · simp only [safe_read_frame_data]
    rw [if_pos hcond]

/-- Witness for C7: the encode at `save_time = 0`, plus an out-of-range read
from the empty buffer. -/
theorem C7_two_red_frames_scenario_witness :
    add_metadata [solid_frame 2 2 255 0 0, solid_frame 2 2 255 0 0] 1 0 =
      .ok ((add_metadata [solid_frame 2 2 255 0 0, solid_frame 2 2 255 0 0]
              1 0).toOption.getD []) ∧
    16 + 0 * (1 * 1 * 3) + 1 * 1 * 3 > ([] : Bytes).length - 16 ∧
    (((add_metadata [solid_frame 2 2 255 0 0, solid_frame 2 2 255 0 0]
        1 0).toOption.getD []).length = 56 ∧
    safe_read_frame_data
        ((add_metadata [solid_frame 2 2 255 0 0, solid_frame 2 2 255 0 0]
          1 0).toOption.getD []) 1 2 2 = .ok (solid_frame 2 2 255 0 0) ∧
    safe_read_frame_data
        ((add_metadata [solid_frame 2 2 255 0 0, solid_frame 2 2 255 0 0]
          1 0).toOption.getD []) 2 2 2 = .error "OutOfRange" ∧
    safe_read_frame_data ([] : Bytes) 0 1 1 = .error "OutOfRange") :=
  ⟨by decide, by decide,
    C7_two_red_frames_scenario 0 _ [] 0 1 1 (by decide) (by decide)⟩

/-- Taking the first 20 frames of a list that starts with the countdown block
yields exactly the countdown block. -/
theorem take20_countdown (hh ww : Nat) (X : List Frame) :
    (create_countdown_frames hh ww ++ X).take 20 =
      create_countdown_frames hh ww := by
  rw [List.take_append_of_le_length (create_countdown_frames_length hh ww).ge,
    List.take_of_length_le (create_countdown_frames_length hh ww).le]

/-- With the countdown enabled, one finite-branch iteration is the countdown
block followed by the base images and the (possibly empty) delay block. -/
theorem finite_unit_true_eq (base : List Frame) (d : Nat) :
    finite_unit base d true =
      create_countdown_frames (image_height base) (image_width base) ++
        (base ++ (if 0 < d ∧ 0 < delay_frames_per_loop d ∧ base ≠ [] then
          List.replicate (delay_frames_per_loop d)
            (black_frame (image_height base) (image_width base))
        else [])) := by
  simp [finite_unit]

/-- With the countdown enabled, loop `j` of the infinite emission is the
countdown block followed by the base images and the conditional delay block. -/
theorem infinite_unit_true_eq (base : List Frame) (d : Nat) (j : Nat) :
    infinite_unit base d true j =
      create_countdown_frames (image_height base) (image_width base) ++
        (base ++ (if 0 < d ∧ 0 < delay_frames_per_loop d ∧ base ≠ [] ∧
            j < loops_needed base d true - 1 then
          List.replicate (delay_frames_per_loop d)
            (black_frame (image_height base) (image_width base))
        else [])) := by
  simp [infinite_unit]

/-- Within the infinite branch's output (loop emission plus any fill suffix),
the 20 frames at offset `j * frames_per_loop` are the countdown block, for
every emitted loop `j`. -/
theorem infinite_countdown_at (base : List Frame) (d : Nat)
    (suffix : List Frame) (j : Nat) (hb : base ≠ [])
    (hj : j < loops_needed base d true) :
    ((infinite_emitted base d true ++ suffix).drop
        (j * frames_per_loop base d true)).take 20 =
      create_countdown_frames (image_height base) (image_width base) := by
  have hlen : ∀ j', j' < j →
      (infinite_unit base d true j').length = frames_per_loop base d true :=
    fun j' hj' => infinite_unit_length_eq base d true j' hb (by omega)
  have hdropE := flatMap_range_drop (frames_per_loop base d true) j
    (infinite_unit base d true) (loops_needed base d true) (le_of_lt hj) hlen
  obtain ⟨k, hk⟩ : ∃ k, loops_needed base d true - j = k + 1 :=
    ⟨loops_needed base d true - j - 1, by omega⟩
  have hR : (List.range (loops_needed base d true - j)).flatMap
      (fun r => infinite_unit base d true (r + j)) =
      infinite_unit base d true j ++
        (List.range k).flatMap
          (fun r => infinite_unit base d true (r + 1 + j)) := by
    rw [hk, List.range_succ_eq_map, List.flatMap_cons, List.flatMap_map]
    congr 1
    simp
  have hjle : j * frames_per_loop base d true ≤
      (infinite_emitted base d true).length := by
    by_contra hcon
    push_neg at hcon
    have hnil : (infinite_emitted base d true).drop
        (j * frames_per_loop base d true) = [] :=
      List.drop_eq_nil_of_le (le_of_lt hcon)
    rw [infinite_emitted, hdropE, hR, infinite_unit_true_eq] at hnil
    simp [create_countdown_frames, seq_fps] at hnil
  rw [List.drop_append_of_le_length hjle, infinite_emitted, hdropE, hR,
    infinite_unit_true_eq]
  simp only [List.append_assoc]
  exact take20_countdown _ _ _

/-- C5: with the countdown enabled, every loop iteration of both the finite
and the infinite branch begins with exactly `4*fps = 20` countdown frames:
`fps` solid red, then `fps` solid yellow, then `fps` solid green, then `fps`
solid black frames at the base dimensions; with the countdown disabled the
iteration bodies contain no countdown frames at all. -/
theorem C5_countdown_blocks (base : List Frame) (d N i j : Nat)
    (hb : base ≠ []) (hiN : i < N) (hj : j < loops_needed base d true) :
    ((assemble_finite base N d true).drop
        (i * (finite_unit base d true).length)).take 20 =
      create_countdown_frames (image_height base) (image_width base) ∧
    ((assemble_infinite base d true).drop
        (j * frames_per_loop base d true)).take 20 =
      create_countdown_frames (image_height base) (image_width base) ∧
    create_countdown_frames (image_height base) (image_width base) =
      List.replicate seq_fps
          (solid_frame (image_height base) (image_width base) 255 0 0) ++
        List.replicate seq_fps
          (solid_frame (image_height base) (image_width base) 255 255 0) ++
        List.replicate seq_fps
          (solid_frame (image_height base) (image_width base) 0 255 0) ++
        List.replicate seq_fps
          (solid_frame (image_height base) (image_width base) 0 0 0) ∧
    4 * seq_fps = 20 ∧
    finite_unit base d false =
      base ++ (if 0 < d ∧ 0 < delay_frames_per_loop d ∧ base ≠ [] then
        List.replicate (delay_frames_per_loop d)
          (black_frame (image_height base) (image_width base))
      else []) ∧
    infinite_unit base d false j =
      base ++ (if 0 < d ∧ 0 < delay_frames_per_loop d ∧ base ≠ [] ∧
          j < loops_needed base d false - 1 then
        List.replicate (delay_frames_per_loop d)
          (black_frame (image_height base) (image_width base))
      else []) := by
  refine ⟨?_, ?_, rfl, rfl, by simp [finite_unit], by simp [infinite_unit]⟩
  · have hdropF := flatMap_range_drop (finite_unit base d true).length i
      (fun _ => finite_unit base d true) N (le_of_lt hiN) (fun _ _ => rfl)
    unfold assemble_finite
    rw [hdropF]
    obtain ⟨k, hk⟩ : ∃ k, N - i = k + 1 := ⟨N - i - 1, by omega⟩
    rw [hk, List.range_succ_eq_map, List.flatMap_cons, List.flatMap_map]
    rw [show ((fun _ => finite_unit base d true) 0 : List Frame)
          = finite_unit base d true from rfl, finite_unit_true_eq]
    simp only [List.append_assoc]
    exact take20_countdown _ _ _
  · unfold assemble_infinite
    by_cases hlt : (infinite_emitted base d true).length < 18000
    · rw [if_pos hlt]
      exact infinite_countdown_at base d _ j hb hj
    · rw [if_neg hlt]
      have := infinite_countdown_at base d [] j hb hj
      rwa [List.append_nil] at this

/-- Witness for C5 at a single red base frame, 1000 ms delay, iteration 0 of
both branches (`N = 1`). -/
theorem C5_countdown_blocks_witness :
    ([[[[255, 0, 0]]]] : List Frame) ≠ [] ∧ 0 < 1 ∧
    0 < loops_needed [[[[255, 0, 0]]]] 1000 true ∧
    (((assemble_finite [[[[255, 0, 0]]]] 1 1000 true).drop
        (0 * (finite_unit [[[[255, 0, 0]]]] 1000 true).length)).take 20 =
      create_countdown_frames (image_height [[[[255, 0, 0]]]])
        (image_width [[[[255, 0, 0]]]]) ∧
    ((assemble_infinite [[[[255, 0, 0]]]] 1000 true).drop
        (0 * frames_per_loop [[[[255, 0, 0]]]] 1000 true)).take 20 =
      create_countdown_frames (image_height [[[[255, 0, 0]]]])
        (image_width [[[[255, 0, 0]]]]) ∧
    create_countdown_frames (image_height [[[[255, 0, 0]]]])
        (image_width [[[[255, 0, 0]]]]) =
      List.replicate seq_fps
          (solid_frame (image_height [[[[255, 0, 0]]]])
            (image_width [[[[255, 0, 0]]]]) 255 0 0) ++
        List.replicate seq_fps
          (solid_frame (image_height [[[[255, 0, 0]]]])
            (image_width [[[[255, 0, 0]]]]) 255 255 0) ++
        List.replicate seq_fps
          (solid_frame (image_height [[[[255, 0, 0]]]])
            (image_width [[[[255, 0, 0]]]]) 0 255 0) ++
        List.replicate seq_fps
          (solid_frame (image_height [[[[255, 0, 0]]]])
            (image_width [[[[255, 0, 0]]]]) 0 0 0) ∧
    4 * seq_fps = 20 ∧
    finite_unit [[[[255, 0, 0]]]] 1000 false =
      [[[[255, 0, 0]]]] ++
        (if 0 < 1000 ∧ 0 < delay_frames_per_loop 1000 ∧
            ([[[[255, 0, 0]]]] : List Frame) ≠ [] then
          List.replicate (delay_frames_per_loop 1000)
            (black_frame (image_height [[[[255, 0, 0]]]])
              (image_width [[[[255, 0, 0]]]]))
        else []) ∧
    infinite_unit [[[[255, 0, 0]]]] 1000 false 0 =
      [[[[255, 0, 0]]]] ++
        (if 0 < 1000 ∧ 0 < delay_frames_per_loop 1000 ∧
            ([[[[255, 0, 0]]]] : List Frame) ≠ [] ∧
            0 < loops_needed [[[[255, 0, 0]]]] 1000 false - 1 then
          List.replicate (delay_frames_per_loop 1000)
            (black_frame (image_height [[[[255, 0, 0]]]])
              (image_width [[[[255, 0, 0]]]]))
        else [])) :=
  ⟨by decide, by decide, by decide,
    C5_countdown_blocks [[[[255, 0, 0]]]] 1000 1 0 0 (by decide) (by decide)
      (by decide)⟩

end PixelArt
